import Mathlib

/-!
Verification of the plasma baby prover (`src/plasma/src/server/baby_prover.rs`).

The BN256 scalar field `Fr` is embedded as `ZMod p` for the concrete prime
modulus. External collaborators (the balance tree's Merkle hashing, the
fixed-point codec `parse_float_to_u128` from sapling-crypto, SHA-256, the
per-transaction public-data encoder, and the Groth16 proving system) are kept
abstract as fields of an `Externals` record; everything the source file itself
does is translated concretely.
-/

/-- The BN256 (alt-bn128) scalar-field modulus of `pairing::bn256::Fr`. -/
def frModulus : ℕ :=
  21888242871839275222246405745257275088548364400416034343698204186575808495617

/-- The field `Fr` of the pairing crate, as integers mod the scalar modulus. -/
abbrev Fr := ZMod frModulus

/-- An account leaf of the balance tree: balance, nonce and public-key
coordinates, all field elements (`plasma::balance_tree` leaf as used here). -/
structure Leaf where
  balance : Fr
  nonce : Fr
  pub_x : Fr
  pub_y : Fr
deriving DecidableEq

/-- The `items` map of `BabyBalanceTree`: partial map from (u32) account
index to leaf. -/
def Items : Type := Nat → Option Leaf

/-- Modelled from the spec: `BabyBalanceTree::insert`
(`plasma::balance_tree`, not under src/) overwrites the binding at one index
("insert/overwrite by index", spec data model). -/
def insertItem (t : Items) (i : Nat) (l : Leaf) : Items :=
  fun j => if j = i then some l else t j

/-- The empty items map (`BabyBalanceTree::new`). -/
def emptyItems : Items := fun _ => none

/-- Error type `BabyProverErr`; the payload of `IoError` (a `std::io::Error`)
is opaque and modelled as a string. -/
inductive BabyProverErr where
  | Unknown
  | InvalidAmountEncoding
  | InvalidFeeEncoding
  | InvalidSender
  | InvalidRecipient
  | IoError (e : String)
deriving DecidableEq

/-- A transaction of an incoming block (`plasma_state` side): plain field
elements. `from`/`to` are Lean keywords, hence the `tx_` prefixes. The
signature is an opaque external value, modelled as `Unit`. -/
structure PlainTx where
  tx_from : Fr
  tx_to : Fr
  amount : Fr
  fee : Fr
  nonce : Fr
  good_until_block : Fr
  signature : Unit
deriving DecidableEq

/-- The circuit-side `Transaction` record (`circuit::baby_plasma`): every
field wrapped in `Option`. -/
structure Transaction where
  tx_from : Option Fr
  tx_to : Option Fr
  amount : Option Fr
  fee : Option Fr
  nonce : Option Fr
  good_until_block : Option Fr
  signature : Option Unit
deriving DecidableEq

/-- The circuit-side `TransactionWitness` record. -/
structure TransactionWitness where
  auth_path_from : List (Option (Fr × Bool))
  balance_from : Option Fr
  nonce_from : Option Fr
  pub_x_from : Option Fr
  pub_y_from : Option Fr
  auth_path_to : List (Option (Fr × Bool))
  balance_to : Option Fr
  nonce_to : Option Fr
  pub_x_to : Option Fr
  pub_y_to : Option Fr
deriving DecidableEq

/-- The circuit instance `Update` (curve parameters, a global constant,
omitted). -/
structure Update where
  number_of_transactions : Nat
  old_root : Option Fr
  new_root : Option Fr
  public_data_commitment : Option Fr
  block_number : Option Fr
  total_fee : Option Fr
  transactions : List (Option (Transaction × TransactionWitness))

/-- A block: number plus ordered transactions (`plasma_state::Block`). -/
structure Block where
  block_number : Nat
  transactions : List PlainTx

/-- Modelled from the spec: the external account state handle
(`plasma_state::State`, not under src/): `accounts_iter()` as a list of
pairs and the reported `root_hash()`. -/
structure State where
  accounts_iter : List (Nat × Leaf)
  root_hash : Fr

/-- Little-endian bit list of the `w` low bits of `n`. -/
def natBitsLE (w : Nat) (n : Nat) : List Bool :=
  (List.range w).map (fun i => n.testBit i)

/-- Big-endian bit list of the `w` low bits of `n`. -/
def natBitsBE (w : Nat) (n : Nat) : List Bool :=
  (natBitsLE w n).reverse

/-- `BitIterator::new(x.into_repr()).collect()`: the 256 bits of the canonical
representation of a field element, most-significant first. -/
def frBits (x : Fr) : List Bool :=
  natBitsBE 256 x.val

/-- `field_element_to_u32` (baby_prover.rs:66): collect the big-endian bits of
the canonical representation, reverse, truncate to 32, and re-assemble with a
doubling base accumulator. `res` and `base` are u32, so both are tracked
mod 2^32. -/
def field_element_to_u32 (fr : Fr) : Nat :=
  let iterator := ((frBits fr).reverse).take 32
  (iterator.foldl
    (fun rb bit =>
      ((if bit then (rb.1 + rb.2) % 2 ^ 32 else rb.1), rb.2 * 2 % 2 ^ 32))
    ((0 : Nat), (1 : Nat))).1

/-- Modelled from the spec: `be_bit_vector_into_bytes`
(`circuit::utils`, not under src/) packs a big-endian bit vector into bytes,
eight bits per byte, most-significant bit first ("pack into bytes", spec 4.4
step 1; bytes are modelled as naturals below 256). -/
def bitsToByte (bits : List Bool) : Nat :=
  bits.foldl (fun acc b => acc * 2 + (if b then 1 else 0)) 0

/-- Modelled from the spec: byte packing of a bit vector, see `bitsToByte`. -/
def be_bit_vector_into_bytes : List Bool → List Nat
  | [] => []
  | b :: rest =>
    bitsToByte ((b :: rest).take 8) :: be_bit_vector_into_bytes ((b :: rest).drop 8)
  termination_by l => l.length
  decreasing_by
    simp only [List.length_drop, List.length_cons]
    omega

/-- Big-endian interpretation of a byte list as a natural number
(`repr.read_be`). -/
def bytesToNatBE (bytes : List Nat) : Nat :=
  bytes.foldl (fun acc b => acc * 256 + b) 0

/-- `hash_result[0] &= 0x1f` (baby_prover.rs:313): mask the most-significant
byte of a big-endian byte string with 0x1f. -/
def maskFirstByte : List Nat → List Nat
  | [] => []
  | b :: rest => (b &&& 0x1f) :: rest

/-- The external collaborators used by the prover, kept abstract:
Merkle hashing of the balance tree, the sapling-crypto fixed-point parser,
the bit-width constants of `plasma_constants`, SHA-256, the per-transaction
public-data encoder, and the Groth16 primitives. -/
structure Externals (Params Proof VK : Type) where
  root_hash : Items → Fr
  merkle_path : Items → Nat → List (Fr × Bool)
  parse_float_to_u128 : List Bool → Nat → Nat → Nat → Option Nat
  AMOUNT_EXPONENT_BIT_WIDTH : Nat
  AMOUNT_MANTISSA_BIT_WIDTH : Nat
  FEE_EXPONENT_BIT_WIDTH : Nat
  FEE_MANTISSA_BIT_WIDTH : Nat
  sha256 : List Nat → List Nat
  public_data_into_bits : PlainTx → List Bool
  create_random_proof : Update → Params → Option Proof
  prepare_verifying_key : Params → VK
  verify_proof : VK → Proof → List Fr → Bool

/-- The prover state (`BabyProver` struct). -/
structure BabyProver (Params : Type) where
  batch_size : Nat
  accounts_tree : Items
  parameters : Params

section Operations

variable {Params Proof VK : Type}

/-- One iteration of the transaction loop of `apply_and_prove`
(baby_prover.rs:180-264): look the two leaves up, parse amount and fee,
capture the Merkle paths, update both leaves (sender first, recipient
second), and build the witness from the pre-update leaves and paths.
Returns the new items map, the fee as a field element, and the pushed
witness entry. -/
def applyTx (E : Externals Params Proof VK) (tree : Items) (tx : PlainTx) :
    Except BabyProverErr (Items × Fr × Option (Transaction × TransactionWitness)) :=
  let sender_leaf_number := field_element_to_u32 tx.tx_from
  let recipient_leaf_number := field_element_to_u32 tx.tx_to
  match tree sender_leaf_number, tree recipient_leaf_number with
  | none, _ => .error .InvalidSender
  | some _, none => .error .InvalidSender
  | some sender_leaf, some recipient_leaf =>
    let parsed_transfer_amount :=
      E.parse_float_to_u128 (frBits tx.amount)
        E.AMOUNT_EXPONENT_BIT_WIDTH E.AMOUNT_MANTISSA_BIT_WIDTH 10
    let parsed_fee :=
      E.parse_float_to_u128 (frBits tx.fee)
        E.FEE_EXPONENT_BIT_WIDTH E.FEE_MANTISSA_BIT_WIDTH 10
    match parsed_transfer_amount, parsed_fee with
    | none, _ => .error .InvalidAmountEncoding
    | some _, none => .error .InvalidAmountEncoding
    | some amount_u128, some fee_u128 =>
      let transfer_amount_as_field_element : Fr := (amount_u128 : Fr)
      let fee_as_field_element : Fr := (fee_u128 : Fr)
      let path_from : List (Option (Fr × Bool)) :=
        (E.merkle_path tree sender_leaf_number).map (fun e => some e)
      let path_to : List (Option (Fr × Bool)) :=
        (E.merkle_path tree recipient_leaf_number).map (fun e => some e)
      let transaction : Transaction :=
        { tx_from := some tx.tx_from
          tx_to := some tx.tx_to
          amount := some tx.amount
          fee := some tx.fee
          nonce := some tx.nonce
          good_until_block := some tx.good_until_block
          signature := some tx.signature }
      let updated_sender_leaf : Leaf :=
        { sender_leaf with
          balance := sender_leaf.balance - transfer_amount_as_field_element
                       - fee_as_field_element
          nonce := sender_leaf.nonce + 1 }
      let updated_recipient_leaf : Leaf :=
        { recipient_leaf with
          balance := recipient_leaf.balance + transfer_amount_as_field_element }
      let tree1 := insertItem tree sender_leaf_number updated_sender_leaf
      let tree2 := insertItem tree1 recipient_leaf_number updated_recipient_leaf
      let transaction_witness : TransactionWitness :=
        { auth_path_from := path_from
          balance_from := some sender_leaf.balance
          nonce_from := some sender_leaf.nonce
          pub_x_from := some sender_leaf.pub_x
          pub_y_from := some sender_leaf.pub_y
          auth_path_to := path_to
          balance_to := some recipient_leaf.balance
          nonce_to := some recipient_leaf.nonce
          pub_x_to := some recipient_leaf.pub_x
          pub_y_to := some recipient_leaf.pub_y }
      .ok (tree2, fee_as_field_element, some (transaction, transaction_witness))

/-- The transaction loop of `apply_and_prove`: threads the items map, the
running `total_fees`, and the ordered witness list through `applyTx`. On an
error the map mutated by the earlier iterations is kept (the Rust loop early
returns out of a method on `&mut self`). -/
def applyTxs (E : Externals Params Proof VK) :
    Items → Fr → List (Option (Transaction × TransactionWitness)) → List PlainTx →
      Items × Except BabyProverErr (Fr × List (Option (Transaction × TransactionWitness)))
  | tree, total_fees, witnesses, [] => (tree, .ok (total_fees, witnesses))
  | tree, total_fees, witnesses, tx :: rest =>
    match applyTx E tree tx with
    | .error e => (tree, .error e)
    | .ok (tree2, fee, w) => applyTxs E tree2 (total_fees + fee) (witnesses ++ [w]) rest

/-- `encode_transactions` (baby_prover.rs:150): concatenate, in order, each
transaction's packed public-data bytes; always returns `Ok`. -/
def encode_transactions (E : Externals Params Proof VK) (block : Block) :
    Except BabyProverErr (List Nat) :=
  let encoding := block.transactions.foldl
    (fun enc tx => enc ++ be_bit_vector_into_bytes (E.public_data_into_bits tx)) []
  .ok encoding

/-- The commitment computation of `apply_and_prove` (baby_prover.rs:270-318):
pad the big-endian bits of the block number and of the accumulated fees to
256 bits each, concatenate, pack to bytes, SHA-256; SHA-256 again over that
hash followed by the packed transaction data; clear the top three bits of the
first byte and read the result as a big-endian integer into the field. -/
def public_data_commitment (E : Externals Params Proof VK)
    (block_number : Fr) (total_fees : Fr) (public_data : List Nat) : Fr :=
  let block_number_bits := frBits block_number
  let total_fee_bits := frBits total_fees
  let public_data_initial_bits :=
    (List.replicate (256 - block_number_bits.length) false ++ block_number_bits)
      ++ (List.replicate (256 - total_fee_bits.length) false ++ total_fee_bits)
  let bytes_to_hash := be_bit_vector_into_bytes public_data_initial_bits
  let hash_result := E.sha256 bytes_to_hash
  let next_round_hash_bytes := hash_result ++ public_data
  let hash_result2 := E.sha256 next_round_hash_bytes
  let clipped := maskFirstByte hash_result2
  ((bytesToNatBE clipped : Nat) : Fr)

/-- The unwrapped `encode_transactions` result at the start of
`apply_and_prove` (baby_prover.rs:165): the `unwrap` is modelled with an
unreachable default branch, see the theorem on C10. -/
def publicDataOf (E : Externals Params Proof VK) (block : Block) : List Nat :=
  match encode_transactions E block with
  | .ok e => e
  | .error _ => []

/-- `apply_and_prove` (baby_prover.rs:163): check the batch size, replay the
transactions, build the commitment and the circuit instance, create a proof
and self-verify it. The Rust method mutates `self`; the model returns the
new prover state beside the result. -/
def apply_and_prove (E : Externals Params Proof VK)
    (self : BabyProver Params) (block : Block) :
    BabyProver Params × Except BabyProverErr Proof :=
  let public_data : List Nat := publicDataOf E block
  let transactions := block.transactions
  let num_txes := transactions.length
  if num_txes ≠ self.batch_size then (self, .error .Unknown)
  else
    let initial_root := E.root_hash self.accounts_tree
    match applyTxs E self.accounts_tree 0 [] transactions with
    | (tree2, .error e) => ({ self with accounts_tree := tree2 }, .error e)
    | (tree2, .ok (total_fees, witnesses)) =>
      let self2 : BabyProver Params := { self with accounts_tree := tree2 }
      let block_number : Fr := (block.block_number : Fr)
      let final_root := E.root_hash tree2
      let commitment := public_data_commitment E block_number total_fees public_data
      let inst : Update :=
        { number_of_transactions := num_txes
          old_root := some initial_root
          new_root := some final_root
          public_data_commitment := some commitment
          block_number := some block_number
          total_fee := some total_fees
          transactions := witnesses }
      match E.create_random_proof inst self.parameters with
      | none => (self2, .error .Unknown)
      | some proof =>
        let pvk := E.prepare_verifying_key self.parameters
        if E.verify_proof pvk proof [initial_root, final_root, commitment]
        then (self2, .ok proof)
        else (self2, .error .Unknown)

/-- Rebuild the local balance tree from a state's `accounts_iter()`
(baby_prover.rs:114-122). -/
def rebuildTree (st : State) : Items :=
  st.accounts_iter.foldl (fun t e => insertItem t e.1 e.2) emptyItems

/-- `BabyProver::new` (baby_prover.rs:93): the parameter-store read (file
open plus `Parameters::read`) is an external effect, passed in as an
`Except`; on its failure return `IoError`. Otherwise rebuild the tree from
`accounts_iter()` and require its root to equal the state's reported root;
a mismatch is `Unknown`, else the prover starts with batch size 128. -/
def BabyProver.new (E : Externals Params Proof VK)
    (circuit_params : Except String Params) (initial_state : State) :
    Except BabyProverErr (BabyProver Params) :=
  match circuit_params with
  | .error e => .error (.IoError e)
  | .ok params =>
    let tree := rebuildTree initial_state
    let root := E.root_hash tree
    let supplied_root := initial_state.root_hash
    if root ≠ supplied_root then .error .Unknown
    else .ok { batch_size := 128, accounts_tree := tree, parameters := params }

end Operations

section BitLemmas

lemma natBitsLE_take (w w' v : Nat) (h : w' ≤ w) :
    (natBitsLE w v).take w' = natBitsLE w' v := by
  simp [natBitsLE, ← List.map_take, List.take_range, Nat.min_eq_left h]

lemma natBitsLE_succ (n v : Nat) :
    natBitsLE (n + 1) v = natBitsLE n v ++ [v.testBit n] := by
  simp [natBitsLE, List.range_succ]

lemma bitsFold (v : Nat) : ∀ n, n ≤ 32 →
    ((natBitsLE n v).foldl
      (fun rb bit => ((if bit then (rb.1 + rb.2) % 2 ^ 32 else rb.1), rb.2 * 2 % 2 ^ 32))
      ((0 : Nat), (1 : Nat))) = (v % 2 ^ n, 2 ^ n % 2 ^ 32) := by
  intro n
  induction n with
  | zero => intro _; simp [natBitsLE, Nat.mod_one]
  | succ n ih =>
    intro h
    rw [natBitsLE_succ, List.foldl_append, ih (by omega)]
    simp only [List.foldl_cons, List.foldl_nil, Prod.mk.injEq]
    have h2n : (2 : ℕ) ^ n < 2 ^ 32 := Nat.pow_lt_pow_right (by norm_num) (by omega)
    have key : v % 2 ^ (n + 1) = v % 2 ^ n + 2 ^ n * (v / 2 ^ n % 2) := Nat.mod_pow_succ
    constructor
    · by_cases hb : v.testBit n
      · rw [if_pos hb]
        have h1 : v / 2 ^ n % 2 = 1 := by simpa [Nat.testBit_to_div_mod] using hb
        rw [key, h1, mul_one, Nat.mod_eq_of_lt h2n]
        apply Nat.mod_eq_of_lt
        have hm : v % 2 ^ n < 2 ^ n := Nat.mod_lt _ (by positivity)
        have hle : (2 : ℕ) ^ (n + 1) ≤ 2 ^ 32 := Nat.pow_le_pow_right (by norm_num) h
        have hsplit : (2 : ℕ) ^ (n + 1) = 2 ^ n + 2 ^ n := by ring
        omega
      · rw [if_neg hb]
        have h0 : v / 2 ^ n % 2 = 0 := by
          rcases Nat.mod_two_eq_zero_or_one (v / 2 ^ n) with h0 | h1
          · exact h0
          · exact absurd (by simp [Nat.testBit_to_div_mod, h1]) hb
        rw [key, h0, mul_zero, add_zero]
    · rw [Nat.mod_mul_mod, ← pow_succ]

end BitLemmas

/-- C9: `field_element_to_u32(x)` returns the unsigned 32-bit integer formed
from the 32 least-significant bits of the canonical bit representation of
`x`, i.e. it equals `x mod 2^32`. -/
theorem c9_field_element_to_u32_mod (x : Fr) :
    field_element_to_u32 x = x.val % 2 ^ 32 := by
  have h : field_element_to_u32 x
      = (((frBits x).reverse.take 32).foldl
          (fun rb bit => ((if bit then (rb.1 + rb.2) % 2 ^ 32 else rb.1), rb.2 * 2 % 2 ^ 32))
          ((0 : Nat), (1 : Nat))).1 := rfl
  rw [h, frBits, natBitsBE, List.reverse_reverse,
    natBitsLE_take 256 32 x.val (by norm_num), bitsFold x.val 32 le_rfl]

/-- A concrete instantiation of the external collaborators, used by the
closed witness theorems: trivial hashes, a fixed-point parser that returns 2
for the amount widths and 1 for the fee widths, and a trivial proof system. -/
def dummyE : Externals Unit Unit Unit :=
  { root_hash := fun _ => 0
    merkle_path := fun _ _ => []
    parse_float_to_u128 := fun _ ew _ _ => if ew = 0 then some 2 else some 1
    AMOUNT_EXPONENT_BIT_WIDTH := 0
    AMOUNT_MANTISSA_BIT_WIDTH := 0
    FEE_EXPONENT_BIT_WIDTH := 1
    FEE_MANTISSA_BIT_WIDTH := 0
    sha256 := fun _ => List.replicate 32 0
    public_data_into_bits := fun _ => []
    create_random_proof := fun _ _ => some ()
    prepare_verifying_key := fun _ => ()
    verify_proof := fun _ _ _ => true }

/-- A sample prover state over the trivial proof system. -/
def prover0 : BabyProver Unit :=
  { batch_size := 128, accounts_tree := emptyItems, parameters := () }

/-- A sample empty block. -/
def blk0 : Block := { block_number := 0, transactions := [] }

/-- A sample state snapshot with no accounts. -/
def st0 : State := { accounts_iter := [], root_hash := 0 }

/-- C6: a block whose transaction count differs from the configured batch
size makes apply_and_prove return Unknown with the prover state, in
particular the accounts tree, exactly as it was. -/
theorem c6_batch_size_guard {Params Proof VK : Type} (E : Externals Params Proof VK)
    (self : BabyProver Params) (block : Block)
    (h : block.transactions.length ≠ self.batch_size) :
    apply_and_prove E self block = (self, .error .Unknown) := by
  unfold apply_and_prove
  simp [h]

/-- C6 witness: the guard fires on an empty block against batch size 128. -/
theorem c6_batch_size_guard_witness :
    apply_and_prove dummyE prover0 blk0 = (prover0, .error .Unknown) :=
  c6_batch_size_guard dummyE prover0 blk0 (by decide)

lemma foldl_append_eq_flatMap {α β : Type} (f : α → List β) :
    ∀ (l : List α) (acc : List β),
      l.foldl (fun enc x => enc ++ f x) acc = acc ++ l.flatMap f := by
  intro l
  induction l with
  | nil => intro acc; simp
  | cons x rest ih => intro acc; simp [ih]

/-- C10: encode_transactions returns Ok on every block, the in-order
concatenation of each transaction's packed public-data bytes, so the unwrap
of its result at the start of apply_and_prove can never panic. -/
theorem c10_encode_transactions_total {Params Proof VK : Type}
    (E : Externals Params Proof VK) (block : Block) :
    encode_transactions E block
      = .ok (block.transactions.flatMap
          (fun tx => be_bit_vector_into_bytes (E.public_data_into_bits tx))) := by
  unfold encode_transactions
  rw [foldl_append_eq_flatMap]
  simp

/-- C5: given that the proving parameters load, construction succeeds iff the
tree rebuilt from accounts_iter() has root equal to the reported root_hash();
a mismatch yields Unknown, and a parameter-store failure yields IoError. -/
theorem c5_new_root_integrity {Params Proof VK : Type} (E : Externals Params Proof VK)
    (st : State) :
    (∀ params : Params,
      ((∃ prov, BabyProver.new E (.ok params) st = .ok prov)
         ↔ E.root_hash (rebuildTree st) = st.root_hash)
      ∧ (E.root_hash (rebuildTree st) = st.root_hash →
          BabyProver.new E (.ok params) st
            = .ok { batch_size := 128, accounts_tree := rebuildTree st,
                    parameters := params })
      ∧ (E.root_hash (rebuildTree st) ≠ st.root_hash →
          BabyProver.new E (.ok params) st = .error .Unknown))
    ∧ ∀ e : String, (BabyProver.new E (.error e) st : Except BabyProverErr (BabyProver Params))
        = .error (.IoError e) := by
  constructor
  · intro params
    by_cases hroot : E.root_hash (rebuildTree st) = st.root_hash
    · refine ⟨⟨fun _ => hroot, fun _ => ?_⟩, fun _ => ?_, fun hne => absurd hroot hne⟩
      · exact ⟨{ batch_size := 128, accounts_tree := rebuildTree st,
                  parameters := params },
          by simp only [BabyProver.new]; simp [hroot]⟩
      · simp only [BabyProver.new]; simp [hroot]
    · refine ⟨⟨fun hex => ?_, fun hr => absurd hr hroot⟩,
        fun hr => absurd hr hroot, fun _ => ?_⟩
      · exfalso
        obtain ⟨prov, hprov⟩ := hex
        simp only [BabyProver.new] at hprov
        simp [hroot] at hprov
      · simp only [BabyProver.new]; simp [hroot]
  · intro e
    simp only [BabyProver.new]

/-- C5 witness: over the trivial hash, construction succeeds on the empty
state whose reported root is 0, and a parameter read failure is IoError. -/
theorem c5_new_root_integrity_witness :
    BabyProver.new dummyE (.ok ()) st0
      = .ok { batch_size := 128, accounts_tree := rebuildTree st0, parameters := () }
    ∧ (BabyProver.new dummyE (.error "e") st0 : Except BabyProverErr (BabyProver Unit))
      = .error (.IoError "e") :=
  ⟨((c5_new_root_integrity dummyE st0).1 ()).2.1 rfl,
    (c5_new_root_integrity dummyE st0).2 "e"⟩

section LoopLemmas

variable {Params Proof VK : Type}

/-- The circuit `Transaction` record built from a plain transaction
(baby_prover.rs:214-222). -/
def txRecord (tx : PlainTx) : Transaction :=
  { tx_from := some tx.tx_from
    tx_to := some tx.tx_to
    amount := some tx.amount
    fee := some tx.fee
    nonce := some tx.nonce
    good_until_block := some tx.good_until_block
    signature := some tx.signature }

/-- Sender index of a transaction as the loop extracts it. -/
def senderIdx (tx : PlainTx) : Nat := field_element_to_u32 tx.tx_from

/-- Recipient index of a transaction as the loop extracts it. -/
def recipientIdx (tx : PlainTx) : Nat := field_element_to_u32 tx.tx_to

/-- The witness the circuit expects for one transaction, read off a given
tree state: the authentication paths and the leaf fields of sender and
recipient, all pre-update. -/
def witnessOf (E : Externals Params Proof VK) (tree : Items) (tx : PlainTx) :
    TransactionWitness :=
  { auth_path_from := (E.merkle_path tree (senderIdx tx)).map (fun e => some e)
    balance_from := (tree (senderIdx tx)).map Leaf.balance
    nonce_from := (tree (senderIdx tx)).map Leaf.nonce
    pub_x_from := (tree (senderIdx tx)).map Leaf.pub_x
    pub_y_from := (tree (senderIdx tx)).map Leaf.pub_y
    auth_path_to := (E.merkle_path tree (recipientIdx tx)).map (fun e => some e)
    balance_to := (tree (recipientIdx tx)).map Leaf.balance
    nonce_to := (tree (recipientIdx tx)).map Leaf.nonce
    pub_x_to := (tree (recipientIdx tx)).map Leaf.pub_x
    pub_y_to := (tree (recipientIdx tx)).map Leaf.pub_y }

/-- The updated sender leaf of one loop iteration. -/
def updatedSenderLeaf (sl : Leaf) (amount fee : Fr) : Leaf :=
  { sl with balance := sl.balance - amount - fee, nonce := sl.nonce + 1 }

/-- The updated recipient leaf of one loop iteration. -/
def updatedRecipientLeaf (rl : Leaf) (amount : Fr) : Leaf :=
  { rl with balance := rl.balance + amount }

/-- Amount parse result of one transaction. -/
def amountOf (E : Externals Params Proof VK) (tx : PlainTx) : Option Nat :=
  E.parse_float_to_u128 (frBits tx.amount)
    E.AMOUNT_EXPONENT_BIT_WIDTH E.AMOUNT_MANTISSA_BIT_WIDTH 10

/-- Fee parse result of one transaction. -/
def feeParseOf (E : Externals Params Proof VK) (tx : PlainTx) : Option Nat :=
  E.parse_float_to_u128 (frBits tx.fee)
    E.FEE_EXPONENT_BIT_WIDTH E.FEE_MANTISSA_BIT_WIDTH 10

/-- Inversion of a successful loop iteration: both leaves were present, both
parses succeeded, the returned fee is the parsed fee as a field element, the
pushed witness is the pre-state witness, and the new tree is the double
insert (sender first, recipient second). -/
lemma applyTx_ok_inv (E : Externals Params Proof VK) (tree : Items) (tx : PlainTx)
    (t1 : Items) (fee : Fr) (w : Option (Transaction × TransactionWitness))
    (h : applyTx E tree tx = .ok (t1, fee, w)) :
    ∃ sl rl a f,
      tree (senderIdx tx) = some sl
      ∧ tree (recipientIdx tx) = some rl
      ∧ amountOf E tx = some a
      ∧ feeParseOf E tx = some f
      ∧ fee = (f : Fr)
      ∧ w = some (txRecord tx, witnessOf E tree tx)
      ∧ t1 = insertItem (insertItem tree (senderIdx tx)
                (updatedSenderLeaf sl (a : Fr) (f : Fr)))
              (recipientIdx tx) (updatedRecipientLeaf rl (a : Fr)) := by
  simp only [applyTx] at h
  split at h
  · exact absurd h (by simp)
  · exact absurd h (by simp)
  · rename_i sl rl hs hr
    split at h
    · exact absurd h (by simp)
    · exact absurd h (by simp)
    · rename_i a f ha hf
      simp only [Except.ok.injEq, Prod.mk.injEq] at h
      obtain ⟨ht, hfee, hw⟩ := h
      refine ⟨sl, rl, a, f, hs, hr, ha, hf, hfee.symm, ?_, ht.symm⟩
      rw [← hw]
      simp [txRecord, witnessOf, senderIdx, recipientIdx, hs, hr]

/-- Running the loop from any fee accumulator and witness accumulator is the
run from zero accumulators with the total shifted and the witness list
prefixed: the mutated tree does not depend on the accumulators. -/
lemma applyTxs_shift (E : Externals Params Proof VK) :
    ∀ (txs : List PlainTx) (tree : Items) (a : Fr)
      (acc : List (Option (Transaction × TransactionWitness))),
      applyTxs E tree a acc txs
        = match applyTxs E tree 0 [] txs with
          | (t2, .error e) => (t2, .error e)
          | (t2, .ok (tot, ws)) => (t2, .ok (a + tot, acc ++ ws)) := by
  intro txs
  induction txs with
  | nil => intro tree a acc; simp [applyTxs]
  | cons tx rest ih =>
    intro tree a acc
    simp only [applyTxs]
    cases h : applyTx E tree tx with
    | error e => simp
    | ok r =>
      obtain ⟨tree1, fee, w⟩ := r
      simp only
      rw [ih tree1 (a + fee) (acc ++ [w]), ih tree1 (0 + fee) ([] ++ [w])]
      cases h2 : applyTxs E tree1 0 [] rest with
      | mk t2 res =>
        cases res with
        | error e => simp
        | ok p =>
          obtain ⟨tot, ws⟩ := p
          simp [add_assoc]

/-- Concatenation of the loop: a successful run of a first list continues
with the second from the resulting state. -/
lemma applyTxs_append (E : Externals Params Proof VK) :
    ∀ (l1 l2 : List PlainTx) (tree : Items) (a : Fr)
      (acc : List (Option (Transaction × TransactionWitness))) t1 tot1 ws1,
      applyTxs E tree a acc l1 = (t1, .ok (tot1, ws1)) →
      applyTxs E tree a acc (l1 ++ l2) = applyTxs E t1 tot1 ws1 l2 := by
  intro l1
  induction l1 with
  | nil =>
    intro l2 tree a acc t1 tot1 ws1 h
    simp only [applyTxs, Prod.mk.injEq, Except.ok.injEq] at h
    obtain ⟨rfl, rfl, rfl⟩ := h
    simp
  | cons tx rest ih =>
    intro l2 tree a acc t1 tot1 ws1 h
    simp only [applyTxs, List.cons_append] at h ⊢
    cases h2 : applyTx E tree tx with
    | error e => rw [h2] at h; exact absurd h (by simp)
    | ok r =>
      obtain ⟨tree1, fee, w⟩ := r
      rw [h2] at h
      simp only at h ⊢
      exact ih l2 tree1 (a + fee) (acc ++ [w]) t1 tot1 ws1 h

/-- C1 (amended: the sender and recipient indices must be distinct; a
self-transfer lets the recipient write overwrite the sender write): one
loop iteration of apply_and_prove on a transaction whose leaves exist and
whose amount and fee decode gives a tree whose sender leaf has balance
old - amount - fee (field subtraction, no insufficient-balance check) and
nonce old + 1 with pub_x, pub_y unchanged, and whose recipient leaf has
balance old + amount with nonce, pub_x, pub_y unchanged. -/
theorem c1_apply_updates_leaves (E : Externals Params Proof VK)
    (tree : Items) (tx : PlainTx) (sl rl : Leaf) (a f : Nat)
    (hs : tree (senderIdx tx) = some sl)
    (hr : tree (recipientIdx tx) = some rl)
    (ha : amountOf E tx = some a)
    (hf : feeParseOf E tx = some f)
    (hne : senderIdx tx ≠ recipientIdx tx) :
    ∃ t1 w,
      applyTx E tree tx = .ok (t1, (f : Fr), w)
      ∧ t1 (senderIdx tx)
          = some { balance := sl.balance - (a : Fr) - (f : Fr),
                   nonce := sl.nonce + 1, pub_x := sl.pub_x, pub_y := sl.pub_y }
      ∧ t1 (recipientIdx tx)
          = some { balance := rl.balance + (a : Fr),
                   nonce := rl.nonce, pub_x := rl.pub_x, pub_y := rl.pub_y } := by
  have hs' : tree (field_element_to_u32 tx.tx_from) = some sl := hs
  have hr' : tree (field_element_to_u32 tx.tx_to) = some rl := hr
  have ha' : E.parse_float_to_u128 (frBits tx.amount)
      E.AMOUNT_EXPONENT_BIT_WIDTH E.AMOUNT_MANTISSA_BIT_WIDTH 10 = some a := ha
  have hf' : E.parse_float_to_u128 (frBits tx.fee)
      E.FEE_EXPONENT_BIT_WIDTH E.FEE_MANTISSA_BIT_WIDTH 10 = some f := hf
  refine ⟨insertItem (insertItem tree (senderIdx tx)
      (updatedSenderLeaf sl (a : Fr) (f : Fr)))
      (recipientIdx tx) (updatedRecipientLeaf rl (a : Fr)),
    some (txRecord tx, witnessOf E tree tx), ?_, ?_, ?_⟩
  · simp only [applyTx]
    rw [hs', hr', ha', hf']
    refine congrArg Except.ok ?_
    refine Prod.ext rfl (Prod.ext rfl ?_)
    simp [txRecord, witnessOf, senderIdx, recipientIdx, hs', hr']
  · simp [insertItem, updatedSenderLeaf, hne, Ne.symm hne]
  · simp [insertItem, updatedRecipientLeaf]

/-- Sample sender leaf for the concrete runs. -/
def c1sl : Leaf := { balance := 10, nonce := 5, pub_x := 0, pub_y := 0 }

/-- Sample recipient leaf for the concrete runs. -/
def c1rl : Leaf := { balance := 20, nonce := 7, pub_x := 0, pub_y := 0 }

/-- Sample transfer from account 1 to account 2. -/
def c1tx : PlainTx :=
  { tx_from := 1, tx_to := 2, amount := 0, fee := 0, nonce := 0,
    good_until_block := 0, signature := () }

/-- Sample two-account tree. -/
def c1tree : Items := insertItem (insertItem emptyItems 1 c1sl) 2 c1rl

/-- C1 witness: under the sample externals (amount decodes to 2, fee to 1)
the transfer from account 1 to account 2 yields the expected two leaves. -/
theorem c1_apply_updates_leaves_witness :
    ∃ t1 w,
      applyTx dummyE c1tree c1tx = .ok (t1, ((1 : Nat) : Fr), w)
      ∧ t1 (senderIdx c1tx)
          = some { balance := c1sl.balance - ((2 : Nat) : Fr) - ((1 : Nat) : Fr),
                   nonce := c1sl.nonce + 1, pub_x := c1sl.pub_x, pub_y := c1sl.pub_y }
      ∧ t1 (recipientIdx c1tx)
          = some { balance := c1rl.balance + ((2 : Nat) : Fr),
                   nonce := c1rl.nonce, pub_x := c1rl.pub_x, pub_y := c1rl.pub_y } :=
  c1_apply_updates_leaves dummyE c1tree c1tx c1sl c1rl 2 1
    (by decide) (by decide) (by decide) (by decide) (by decide)

/-- Self-transfer used by the counterexamples: sender and recipient are both
account 1. -/
def cxTx : PlainTx :=
  { tx_from := 1, tx_to := 1, amount := 0, fee := 0, nonce := 0,
    good_until_block := 0, signature := () }

/-- Prover with batch size 1 over a tree holding only account 1. -/
def cxProver : BabyProver Unit :=
  { batch_size := 1, accounts_tree := insertItem emptyItems 1 c1sl, parameters := () }

/-- One-transaction block holding the self-transfer. -/
def cxBlock : Block := { block_number := 0, transactions := [cxTx] }

/-- C1 counterexample: on a self-transfer (sender leaf = recipient leaf,
balance 10, nonce 5, amount decoding to 2, fee to 1) apply_and_prove leaves
the sender leaf with balance 12 = 10 + amount and nonce 5, not balance
10 - 2 - 1 and nonce 6 as the claim states: the recipient write overwrites
the sender write. -/
theorem c1_counterexample :
    (apply_and_prove dummyE cxProver cxBlock).1.accounts_tree 1
      = some { balance := 12, nonce := 5, pub_x := 0, pub_y := 0 }
    ∧ (12 : Fr) ≠ 10 - 2 - 1 ∧ (5 : Fr) ≠ 5 + 1 :=
  ⟨by decide, by decide, by decide⟩

/-- Variant sample externals whose fee parse fails (the amount widths still
decode to 2). -/
def dummyEFeeFail : Externals Unit Unit Unit :=
  { dummyE with
    parse_float_to_u128 := fun _ ew _ _ => if ew = 0 then some 2 else none }

/-- C3 counterexample: a transaction whose fee fails fixed-point decoding
while both leaves exist makes apply_and_prove fail with
InvalidAmountEncoding, which is a different error kind from the
InvalidFeeEncoding the claim names. -/
theorem c3_counterexample :
    (apply_and_prove dummyEFeeFail cxProver cxBlock).2
      = .error .InvalidAmountEncoding
    ∧ BabyProverErr.InvalidAmountEncoding ≠ BabyProverErr.InvalidFeeEncoding :=
  ⟨rfl, by decide⟩

/-- C3 (amended: the error returned for a malformed fee is
InvalidAmountEncoding — the loop returns it for either malformed field, and
the InvalidFeeEncoding variant, though declared for malformed fees, is never
produced): a transaction at any position whose fee fails fixed-point
decoding while its sender and recipient leaves exist, reached after a
successful prefix, makes apply_and_prove fail with InvalidAmountEncoding. -/
theorem c3_fee_error_kind {Params Proof VK : Type} (E : Externals Params Proof VK)
    (self : BabyProver Params) (block : Block)
    (txs1 : List PlainTx) (tx : PlainTx) (txs2 : List PlainTx)
    (tree1 : Items) (tot1 : Fr)
    (ws1 : List (Option (Transaction × TransactionWitness)))
    (hsplit : block.transactions = txs1 ++ tx :: txs2)
    (hlen : block.transactions.length = self.batch_size)
    (hpre : applyTxs E self.accounts_tree 0 [] txs1 = (tree1, .ok (tot1, ws1)))
    (hs : (tree1 (senderIdx tx)).isSome)
    (hr : (tree1 (recipientIdx tx)).isSome)
    (hfee : feeParseOf E tx = none) :
    (apply_and_prove E self block).2 = .error .InvalidAmountEncoding := by
  obtain ⟨sl, hsl⟩ := Option.isSome_iff_exists.mp hs
  obtain ⟨rl, hrl⟩ := Option.isSome_iff_exists.mp hr
  have hstep : applyTx E tree1 tx = .error .InvalidAmountEncoding := by
    simp only [applyTx]
    rw [show tree1 (field_element_to_u32 tx.tx_from) = some sl from hsl,
      show tree1 (field_element_to_u32 tx.tx_to) = some rl from hrl]
    have hfee' : E.parse_float_to_u128 (frBits tx.fee)
        E.FEE_EXPONENT_BIT_WIDTH E.FEE_MANTISSA_BIT_WIDTH 10 = none := hfee
    rw [hfee']
    cases E.parse_float_to_u128 (frBits tx.amount)
        E.AMOUNT_EXPONENT_BIT_WIDTH E.AMOUNT_MANTISSA_BIT_WIDTH 10 <;> rfl
  have hloop : applyTxs E self.accounts_tree 0 [] block.transactions
      = (tree1, .error .InvalidAmountEncoding) := by
    rw [hsplit]
    rw [applyTxs_append E txs1 (tx :: txs2) self.accounts_tree 0 [] tree1 tot1 ws1 hpre]
    simp only [applyTxs]
    rw [hstep]
  simp only [apply_and_prove]
  rw [if_neg (not_not_intro hlen)]
  rw [hloop]

/-- C3 witness: the amended statement fires on the concrete failing-fee run
with an empty prefix. -/
theorem c3_fee_error_kind_witness :
    (apply_and_prove dummyEFeeFail cxProver cxBlock).2
      = .error .InvalidAmountEncoding :=
  c3_fee_error_kind dummyEFeeFail cxProver cxBlock [] cxTx []
    cxProver.accounts_tree 0 [] rfl (by decide) rfl (by decide) (by decide)
    (by decide)

/-- The tree state the loop has reached before its (i+1)-st iteration. -/
def prefixTree {Params Proof VK : Type} (E : Externals Params Proof VK)
    (tree : Items) (txs : List PlainTx) (i : Nat) : Items :=
  (applyTxs E tree 0 [] (txs.take i)).1

/-- The mutated tree of a loop run does not depend on the accumulators. -/
lemma applyTxs_fst {Params Proof VK : Type} (E : Externals Params Proof VK)
    (txs : List PlainTx) (tree : Items) (a : Fr)
    (acc : List (Option (Transaction × TransactionWitness))) :
    (applyTxs E tree a acc txs).1 = (applyTxs E tree 0 [] txs).1 := by
  rw [applyTxs_shift]
  rcases applyTxs E tree 0 [] txs with ⟨t2, res⟩
  cases res with
  | error e => rfl
  | ok p => rcases p with ⟨tot, ws⟩; rfl

/-- Content of a successful loop run: one witness per transaction, in order,
and the i-th witness is the pre-state witness of the i-th transaction read
off the tree reached after the first i transactions. -/
lemma applyTxs_witnesses {Params Proof VK : Type} (E : Externals Params Proof VK) :
    ∀ (txs : List PlainTx) (tree tree2 : Items) (tot : Fr)
      (ws : List (Option (Transaction × TransactionWitness))),
      applyTxs E tree 0 [] txs = (tree2, .ok (tot, ws)) →
      ws.length = txs.length
      ∧ ∀ i tx, txs[i]? = some tx →
          ws[i]? = some (some (txRecord tx, witnessOf E (prefixTree E tree txs i) tx)) := by
  intro txs
  induction txs with
  | nil =>
    intro tree tree2 tot ws h
    simp only [applyTxs, Prod.mk.injEq, Except.ok.injEq] at h
    obtain ⟨-, -, rfl⟩ := h
    simp
  | cons tx0 rest ih =>
    intro tree tree2 tot ws h
    simp only [applyTxs] at h
    cases h0 : applyTx E tree tx0 with
    | error e => rw [h0] at h; exact absurd h (by simp)
    | ok r =>
      rcases r with ⟨tree1, fee, w⟩
      rw [h0] at h
      simp only at h
      rw [applyTxs_shift E rest tree1 (0 + fee) ([] ++ [w])] at h
      rcases h2 : applyTxs E tree1 0 [] rest with ⟨t2, res⟩
      rw [h2] at h
      cases res with
      | error e => exact absurd h (by simp)
      | ok p =>
        rcases p with ⟨tot0, ws0⟩
        simp only [Prod.mk.injEq, Except.ok.injEq] at h
        obtain ⟨rfl, -, rfl⟩ := h
        obtain ⟨hlen, hpos⟩ := ih tree1 t2 tot0 ws0 h2
        obtain ⟨sl, rl, a, f, -, -, -, -, -, hw, -⟩ :=
          applyTx_ok_inv E tree tx0 tree1 fee w h0
        constructor
        · simp [hlen]
        · intro i tx hi
          cases i with
          | zero =>
            simp only [List.getElem?_cons_zero, Option.some.injEq] at hi
            subst hi
            simp only [List.nil_append, List.singleton_append, List.getElem?_cons_zero, hw]
            rfl
          | succ i =>
            simp only [List.getElem?_cons_succ] at hi
            simp only [List.nil_append, List.singleton_append, List.getElem?_cons_succ]
            rw [hpos i tx hi]
            have hpt : prefixTree E tree (tx0 :: rest) (i + 1)
                = prefixTree E tree1 rest i := by
              simp only [prefixTree, List.take_succ_cons, applyTxs]
              rw [h0]
              simp only
              exact applyTxs_fst E (rest.take i) tree1 (0 + fee) ([] ++ [w])
            rw [hpt]

/-- C4: a successful run of the transaction loop of apply_and_prove yields
one witness per transaction, in transaction order, and the witness at
position i pairs the sender and recipient authentication paths computed on
the tree reflecting exactly the mutations of transactions 0..i-1 with the
sender and recipient leaf fields as read before transaction i's update. -/
theorem c4_per_tx_witnesses {Params Proof VK : Type} (E : Externals Params Proof VK)
    (self : BabyProver Params) (block : Block) (tree2 : Items) (tot : Fr)
    (ws : List (Option (Transaction × TransactionWitness)))
    (h : applyTxs E self.accounts_tree 0 [] block.transactions
        = (tree2, .ok (tot, ws))) :
    ws.length = block.transactions.length
    ∧ ∀ i tx, block.transactions[i]? = some tx →
        ws[i]? = some (some (txRecord tx,
          witnessOf E (prefixTree E self.accounts_tree block.transactions i) tx)) :=
  applyTxs_witnesses E block.transactions self.accounts_tree tree2 tot ws h

/-- Prover over the sample two-account tree, batch size 1. -/
def c4prover : BabyProver Unit :=
  { batch_size := 1, accounts_tree := c1tree, parameters := () }

/-- One-transaction block holding the sample transfer. -/
def c4block : Block := { block_number := 0, transactions := [c1tx] }

/-- The tree after the sample transfer. -/
def c4tree2 : Items :=
  insertItem (insertItem c1tree (senderIdx c1tx)
      (updatedSenderLeaf c1sl ((2 : Nat) : Fr) ((1 : Nat) : Fr)))
    (recipientIdx c1tx) (updatedRecipientLeaf c1rl ((2 : Nat) : Fr))

/-- The witness list of the sample run. -/
def c4ws : List (Option (Transaction × TransactionWitness)) :=
  [some (txRecord c1tx, witnessOf dummyE c1tree c1tx)]

/-- C4 witness: the sample run produces exactly the pre-state witness of its
transaction, read off the initial tree. -/
theorem c4_per_tx_witnesses_witness :
    c4ws[0]? = some (some (txRecord c1tx,
      witnessOf dummyE (prefixTree dummyE c1tree [c1tx] 0) c1tx)) :=
  (c4_per_tx_witnesses dummyE c4prover c4block c4tree2
    (0 + ((1 : Nat) : Fr)) c4ws rfl).2 0 c1tx rfl

/-- The circuit instance apply_and_prove assembles after a successful
replay (baby_prover.rs:322-331). -/
def proverInstance {Params Proof VK : Type} (E : Externals Params Proof VK)
    (self : BabyProver Params) (block : Block) (tree2 : Items) (tot : Fr)
    (ws : List (Option (Transaction × TransactionWitness))) : Update :=
  { number_of_transactions := block.transactions.length
    old_root := some (E.root_hash self.accounts_tree)
    new_root := some (E.root_hash tree2)
    public_data_commitment := some (public_data_commitment E
      ((block.block_number : Nat) : Fr) tot (publicDataOf E block))
    block_number := some ((block.block_number : Nat) : Fr)
    total_fee := some tot
    transactions := ws }

/-- C8: after a successful replay, apply_and_prove requests a proof for the
assembled instance, self-verifies it against the verifying key derived from
its loaded parameters with exactly the public input tuple (pre-batch root,
post-batch root, public commitment), fails with Unknown when proof creation
errors or self-verification returns false, and returns a proof only when
self-verification succeeded. -/
theorem c8_self_verification {Params Proof VK : Type} (E : Externals Params Proof VK)
    (self : BabyProver Params) (block : Block) (tree2 : Items) (tot : Fr)
    (ws : List (Option (Transaction × TransactionWitness)))
    (hlen : block.transactions.length = self.batch_size)
    (h : applyTxs E self.accounts_tree 0 [] block.transactions
        = (tree2, .ok (tot, ws))) :
    (apply_and_prove E self block
      = ({ self with accounts_tree := tree2 },
         match E.create_random_proof (proverInstance E self block tree2 tot ws)
             self.parameters with
         | none => .error .Unknown
         | some proof =>
           if E.verify_proof (E.prepare_verifying_key self.parameters) proof
               [E.root_hash self.accounts_tree, E.root_hash tree2,
                public_data_commitment E ((block.block_number : Nat) : Fr) tot
                  (publicDataOf E block)]
           then .ok proof
           else .error .Unknown))
    ∧ ∀ proof, (apply_and_prove E self block).2 = .ok proof →
        E.create_random_proof (proverInstance E self block tree2 tot ws)
            self.parameters = some proof
        ∧ E.verify_proof (E.prepare_verifying_key self.parameters) proof
            [E.root_hash self.accounts_tree, E.root_hash tree2,
             public_data_commitment E ((block.block_number : Nat) : Fr) tot
               (publicDataOf E block)] = true := by
  have heq : apply_and_prove E self block
      = ({ self with accounts_tree := tree2 },
         match E.create_random_proof (proverInstance E self block tree2 tot ws)
             self.parameters with
         | none => .error .Unknown
         | some proof =>
           if E.verify_proof (E.prepare_verifying_key self.parameters) proof
               [E.root_hash self.accounts_tree, E.root_hash tree2,
                public_data_commitment E ((block.block_number : Nat) : Fr) tot
                  (publicDataOf E block)]
           then .ok proof
           else .error .Unknown) := by
    simp only [apply_and_prove]
    rw [if_neg (not_not_intro hlen), h]
    simp only [proverInstance]
    split
    · rfl
    · split
      · rfl
      · rfl
  refine ⟨heq, ?_⟩
  intro proof hok
  rw [heq] at hok
  simp only at hok
  rcases hcr : E.create_random_proof (proverInstance E self block tree2 tot ws)
      self.parameters with - | pr
  · rw [hcr] at hok
    exact absurd hok (by simp)
  · rw [hcr] at hok
    simp only at hok
    by_cases hv : E.verify_proof (E.prepare_verifying_key self.parameters) pr
        [E.root_hash self.accounts_tree, E.root_hash tree2,
         public_data_commitment E ((block.block_number : Nat) : Fr) tot
           (publicDataOf E block)] = true
    · rw [if_pos hv] at hok
      simp only [Except.ok.injEq] at hok
      subst hok
      exact ⟨rfl, hv⟩
    · rw [if_neg hv] at hok
      exact absurd hok (by simp)

/-- C8 witness: the sample run (trivial proof system accepting everything)
reaches proof creation and returns the created proof. -/
theorem c8_self_verification_witness :
    (apply_and_prove dummyE c4prover c4block).2 = .ok () := by
  have hc := (c8_self_verification dummyE c4prover c4block c4tree2
    (0 + ((1 : Nat) : Fr)) c4ws rfl rfl).1
  rw [hc]
  rfl

/-- The set of account indices the loop writes for a list of transactions. -/
def touched : List PlainTx → Finset ℕ
  | [] => ∅
  | tx :: rest => insert (senderIdx tx) (insert (recipientIdx tx) (touched rest))

/-- The balance a tree holds at one index (0 for a missing leaf). -/
def balAt (tree : Items) (i : Nat) : Fr := ((tree i).map Leaf.balance).getD 0

/-- Conservation along the loop: every fee parses, the accumulator grows by
the sum of the parsed fees, leaves outside the touched set are untouched,
and the balance deltas over the touched set plus the accumulated fee delta
cancel — provided no transaction is a self-transfer. -/
lemma applyTxs_conservation {Params Proof VK : Type} (E : Externals Params Proof VK) :
    ∀ (txs : List PlainTx) (tree : Items) (a : Fr)
      (acc : List (Option (Transaction × TransactionWitness)))
      (tree2 : Items) (tot : Fr)
      (ws : List (Option (Transaction × TransactionWitness))),
      (∀ tx ∈ txs, senderIdx tx ≠ recipientIdx tx) →
      applyTxs E tree a acc txs = (tree2, .ok (tot, ws)) →
      (∀ tx ∈ txs, (feeParseOf E tx).isSome)
      ∧ tot = a + (txs.map (fun tx => (((feeParseOf E tx).getD 0 : Nat) : Fr))).sum
      ∧ (∀ i, i ∉ touched txs → tree2 i = tree i)
      ∧ (∑ i ∈ touched txs, (balAt tree2 i - balAt tree i)) + (tot - a) = 0 := by
  intro txs
  induction txs with
  | nil =>
    intro tree a acc tree2 tot ws hdist h
    simp only [applyTxs, Prod.mk.injEq, Except.ok.injEq] at h
    obtain ⟨rfl, rfl, rfl⟩ := h
    exact ⟨by simp, by simp, fun i _ => rfl, by simp [touched]⟩
  | cons tx0 rest ih =>
    intro tree a acc tree2 tot ws hdist h
    simp only [applyTxs] at h
    cases h0 : applyTx E tree tx0 with
    | error e => rw [h0] at h; exact absurd h (by simp)
    | ok r =>
      rcases r with ⟨tree1, fee, w⟩
      rw [h0] at h
      simp only at h
      obtain ⟨sl, rl, am, f, hsl, hrl, ham, hfp, hfee, -, htree1⟩ :=
        applyTx_ok_inv E tree tx0 tree1 fee w h0
      have hdist0 : senderIdx tx0 ≠ recipientIdx tx0 := hdist tx0 (by simp)
      have hdistR : ∀ tx ∈ rest, senderIdx tx ≠ recipientIdx tx :=
        fun tx htx => hdist tx (by simp [htx])
      obtain ⟨hsome, htot, hout, hsum⟩ :=
        ih tree1 (a + fee) (acc ++ [w]) tree2 tot ws hdistR h
      have h1s : tree1 (senderIdx tx0)
          = some (updatedSenderLeaf sl (am : Fr) (f : Fr)) := by
        rw [htree1]; simp [insertItem, hdist0]
      have h1r : tree1 (recipientIdx tx0)
          = some (updatedRecipientLeaf rl (am : Fr)) := by
        rw [htree1]; simp [insertItem]
      have h1other : ∀ i, i ≠ senderIdx tx0 → i ≠ recipientIdx tx0 →
          tree1 i = tree i := by
        intro i his hir
        rw [htree1]; simp [insertItem, his, hir]
      refine ⟨?_, ?_, ?_, ?_⟩
      · intro tx htx
        rcases List.mem_cons.mp htx with rfl | hmem
        · simp [hfp]
        · exact hsome tx hmem
      · rw [List.map_cons, List.sum_cons, hfp, htot, hfee]
        simp only [Option.getD_some]
        ring
      · intro i hi
        simp only [touched, Finset.mem_insert, not_or] at hi
        obtain ⟨his, hir, hrest⟩ := hi
        rw [hout i hrest, h1other i his hir]
      · have hT : touched (tx0 :: rest)
            = insert (senderIdx tx0) (insert (recipientIdx tx0) (touched rest)) := rfl
        set s := senderIdx tx0
        set r := recipientIdx tx0
        set T := insert s (insert r (touched rest)) with hTdef
        rw [hT]
        have hsplitSum : ∑ i ∈ T, (balAt tree2 i - balAt tree i)
            = (∑ i ∈ T, (balAt tree2 i - balAt tree1 i))
              + ∑ i ∈ T, (balAt tree1 i - balAt tree i) := by
          rw [← Finset.sum_add_distrib]
          exact Finset.sum_congr rfl (fun i _ => by ring)
        have hTrestT : touched rest ⊆ T :=
          (Finset.subset_insert r (touched rest)).trans
            (Finset.subset_insert s (insert r (touched rest)))
        have h12 : ∑ i ∈ T, (balAt tree2 i - balAt tree1 i)
            = ∑ i ∈ touched rest, (balAt tree2 i - balAt tree1 i) := by
          refine (Finset.sum_subset hTrestT ?_).symm
          intro i hiT hiN
          simp only [balAt]
          rw [hout i hiN]
          ring
        have hsrT : ({s, r} : Finset ℕ) ⊆ T := by
          rw [Finset.insert_subset_iff, Finset.singleton_subset_iff]
          exact ⟨Finset.mem_insert_self s _,
            Finset.mem_insert_of_mem (Finset.mem_insert_self r _)⟩
        have h01 : ∑ i ∈ T, (balAt tree1 i - balAt tree i)
            = ∑ i ∈ ({s, r} : Finset ℕ), (balAt tree1 i - balAt tree i) := by
          refine (Finset.sum_subset hsrT ?_).symm
          intro i hiT hiN
          simp only [Finset.mem_insert, Finset.mem_singleton, not_or] at hiN
          simp only [balAt]
          rw [h1other i hiN.1 hiN.2]
          ring
        have hpair : ∑ i ∈ ({s, r} : Finset ℕ), (balAt tree1 i - balAt tree i)
            = (balAt tree1 s - balAt tree s) + (balAt tree1 r - balAt tree r) := by
          rw [Finset.sum_insert (by simpa using hdist0), Finset.sum_singleton]
        have hbs1 : balAt tree1 s = sl.balance - (am : Fr) - (f : Fr) := by
          simp [balAt, h1s, updatedSenderLeaf]
        have hbs0 : balAt tree s = sl.balance := by simp [balAt, hsl]
        have hbr1 : balAt tree1 r = rl.balance + (am : Fr) := by
          simp [balAt, h1r, updatedRecipientLeaf]
        have hbr0 : balAt tree r = rl.balance := by simp [balAt, hrl]
        rw [hfee] at hsum
        rw [hsplitSum, h12, h01, hpair, hbs1, hbs0, hbr1, hbr0]
        linear_combination hsum

/-- C7 (amended: every transaction's sender and recipient indices must be
distinct; a self-transfer breaks conservation): after the loop of
apply_and_prove applies a batch, the accumulated total_fees is the field sum
of every transaction's decoded fee, leaves outside the touched index set are
unchanged, and the sum of balance deltas over the touched set plus
total_fees is zero in the field. -/
theorem c7_fee_conservation {Params Proof VK : Type} (E : Externals Params Proof VK)
    (self : BabyProver Params) (block : Block) (tree2 : Items) (tot : Fr)
    (ws : List (Option (Transaction × TransactionWitness)))
    (hdist : ∀ tx ∈ block.transactions, senderIdx tx ≠ recipientIdx tx)
    (h : applyTxs E self.accounts_tree 0 [] block.transactions
        = (tree2, .ok (tot, ws))) :
    (∀ tx ∈ block.transactions, (feeParseOf E tx).isSome)
    ∧ tot = (block.transactions.map
        (fun tx => (((feeParseOf E tx).getD 0 : Nat) : Fr))).sum
    ∧ (∀ i, i ∉ touched block.transactions → tree2 i = self.accounts_tree i)
    ∧ (∑ i ∈ touched block.transactions,
        (balAt tree2 i - balAt self.accounts_tree i)) + tot = 0 := by
  obtain ⟨h1, h2, h3, h4⟩ := applyTxs_conservation E block.transactions
    self.accounts_tree 0 [] tree2 tot ws hdist h
  refine ⟨h1, by simpa using h2, h3, by simpa using h4⟩

/-- C7 witness: the sample distinct-accounts run conserves value: the fee
total is 1 and the balance deltas (-3 at the sender, +2 at the recipient)
plus the fee total cancel. -/
theorem c7_fee_conservation_witness :
    (0 + ((1 : Nat) : Fr))
        = ([c1tx].map (fun tx => (((feeParseOf dummyE tx).getD 0 : Nat) : Fr))).sum
    ∧ (∑ i ∈ touched [c1tx], (balAt c4tree2 i - balAt c1tree i))
        + (0 + ((1 : Nat) : Fr)) = 0 := by
  have hc := c7_fee_conservation dummyE c4prover c4block c4tree2
    (0 + ((1 : Nat) : Fr)) c4ws
    (by intro tx htx; simp only [c4block, List.mem_singleton] at htx; subst htx; decide)
    rfl
  exact ⟨hc.2.1, hc.2.2.2⟩

/-- C7 counterexample: on a self-transfer batch (amount decoding to 2, fee
to 1, one account of balance 10) the loop succeeds with total fees 1, the
only touched leaf moves from balance 10 to 12, and the balance delta plus
the fee total is 3, not 0: value is not conserved as the claim states. -/
theorem c7_counterexample :
    (applyTxs dummyE (insertItem emptyItems 1 c1sl) 0 [] [cxTx]).2
        = .ok (0 + ((1 : Nat) : Fr),
            [some (txRecord cxTx, witnessOf dummyE (insertItem emptyItems 1 c1sl) cxTx)])
    ∧ (∑ i ∈ touched [cxTx],
        (balAt (applyTxs dummyE (insertItem emptyItems 1 c1sl) 0 [] [cxTx]).1 i
          - balAt (insertItem emptyItems 1 c1sl) i))
        + (0 + ((1 : Nat) : Fr)) ≠ 0 :=
  ⟨rfl, by decide⟩

instance : NeZero frModulus := ⟨by norm_num [frModulus]⟩

lemma natBitsBE_length (w n : Nat) : (natBitsBE w n).length = w := by
  simp [natBitsBE, natBitsLE]

lemma frBits_length (x : Fr) : (frBits x).length = 256 := by
  simp [frBits, natBitsBE_length]

lemma frBits_natCast (bn : Nat) (h : bn < frModulus) :
    frBits ((bn : Nat) : Fr) = natBitsBE 256 bn := by
  simp [frBits, ZMod.val_natCast, Nat.mod_eq_of_lt h]

lemma bytesToNatBE_shift : ∀ (l : List Nat) (a : Nat),
    l.foldl (fun acc b => acc * 256 + b) a = a * 256 ^ l.length + bytesToNatBE l := by
  intro l
  induction l with
  | nil => intro a; simp [bytesToNatBE]
  | cons b bs ih =>
    intro a
    simp only [List.foldl_cons, List.length_cons, bytesToNatBE]
    rw [ih (a * 256 + b), ih (0 * 256 + b)]
    ring

lemma bytesToNatBE_lt : ∀ (l : List Nat), (∀ b ∈ l, b < 256) →
    bytesToNatBE l < 256 ^ l.length := by
  intro l
  induction l with
  | nil => intro _; simp [bytesToNatBE]
  | cons b bs ih =>
    intro hb
    have hbsm : ∀ x ∈ bs, x < 256 := fun x hx => hb x (List.mem_cons_of_mem b hx)
    have hbb : b < 256 := hb b (List.mem_cons_self b bs)
    have h1 : bytesToNatBE (b :: bs) = b * 256 ^ bs.length + bytesToNatBE bs := by
      simp only [bytesToNatBE, List.foldl_cons]
      rw [bytesToNatBE_shift bs (0 * 256 + b)]
      simp only [bytesToNatBE]
      ring
    have h2 : bytesToNatBE bs < 256 ^ bs.length := ih hbsm
    have h3 : b * 256 ^ bs.length + bytesToNatBE bs < (b + 1) * 256 ^ bs.length := by
      nlinarith [h2]
    have h4 : (b + 1) * 256 ^ bs.length ≤ 256 * 256 ^ bs.length :=
      Nat.mul_le_mul_right _ (by omega)
    simp only [List.length_cons, h1]
    calc b * 256 ^ bs.length + bytesToNatBE bs
        < (b + 1) * 256 ^ bs.length := h3
      _ ≤ 256 * 256 ^ bs.length := h4
      _ = 256 ^ (bs.length + 1) := by ring

/-- The commitment as the specification words it (spec 4.4 and claim C2):
serialize block_number (a u32) as a 256-bit big-endian zero-padded bit
string, total_fees likewise, concatenate to a 512-bit buffer, pack to bytes
and hash to get h1; hash h1 followed by the packed per-transaction public
data to get h2; mask the most-significant byte of h2 with 0x1f; read the
masked 32 bytes as a big-endian integer and reduce it into the field. -/
def commitmentSpec {Params Proof VK : Type} (E : Externals Params Proof VK)
    (block_number : Nat) (total_fees : Fr) (public_data : List Nat) : Fr :=
  let buffer := natBitsBE 256 block_number ++ frBits total_fees
  let h1 := E.sha256 (be_bit_vector_into_bytes buffer)
  let h2 := E.sha256 (h1 ++ public_data)
  ((bytesToNatBE (maskFirstByte h2) : Nat) : Fr)

/-- C2: the commitment apply_and_prove computes equals the field element the
spec describes — 256-bit big-endian zero-padded serializations of
block_number and total_fees concatenated into a 512-bit buffer, packed and
SHA-256-hashed to h1, then h1 with the packed transaction data hashed to h2,
the most-significant byte masked with 0x1f and the masked bytes read as a
big-endian integer — and the masked value is strictly below the field
modulus, so the final conversion never fails. -/
theorem c2_commitment_spec {Params Proof VK : Type} (E : Externals Params Proof VK)
    (block : Block) (total_fees : Fr)
    (hbn : block.block_number < 2 ^ 32)
    (hlen : ∀ l, (E.sha256 l).length = 32)
    (hbound : ∀ l, ∀ b ∈ E.sha256 l, b < 256) :
    public_data_commitment E ((block.block_number : Nat) : Fr) total_fees
        (publicDataOf E block)
      = commitmentSpec E block.block_number total_fees (publicDataOf E block)
    ∧ bytesToNatBE (maskFirstByte (E.sha256
        (E.sha256 (be_bit_vector_into_bytes
            (natBitsBE 256 block.block_number ++ frBits total_fees))
          ++ publicDataOf E block))) < frModulus := by
  have hmod : block.block_number < frModulus := by
    calc block.block_number < 2 ^ 32 := hbn
      _ < frModulus := by norm_num [frModulus]
  have hbits : frBits ((block.block_number : Nat) : Fr)
      = natBitsBE 256 block.block_number := frBits_natCast _ hmod
  constructor
  · simp only [public_data_commitment, commitmentSpec, hbits, natBitsBE_length,
      frBits_length, Nat.sub_self, List.replicate_zero, List.nil_append]
  · set X := E.sha256 (be_bit_vector_into_bytes
        (natBitsBE 256 block.block_number ++ frBits total_fees))
        ++ publicDataOf E block with hX
    have h32 : (E.sha256 X).length = 32 := hlen X
    have hbd : ∀ b ∈ E.sha256 X, b < 256 := hbound X
    rcases hh : E.sha256 X with - | ⟨b0, rest⟩
    · rw [hh] at h32; simp at h32
    · rw [hh] at h32 hbd
      have hrl : rest.length = 31 := by simpa using h32
      have hrb : ∀ b ∈ rest, b < 256 :=
        fun b hb => hbd b (List.mem_cons_of_mem b0 hb)
      have hc0 : b0 &&& 0x1f ≤ 31 := Nat.and_le_right
      have hval : bytesToNatBE ((b0 &&& 0x1f) :: rest)
          = (b0 &&& 0x1f) * 256 ^ rest.length + bytesToNatBE rest := by
        simp only [bytesToNatBE, List.foldl_cons]
        rw [bytesToNatBE_shift rest (0 * 256 + (b0 &&& 0x1f))]
        simp only [bytesToNatBE]
        ring
      have hrest : bytesToNatBE rest < 256 ^ rest.length := bytesToNatBE_lt rest hrb
      rw [hrl] at hval hrest
      have h248 : (256 : ℕ) ^ 31 = 2 ^ 248 := by norm_num
      rw [h248] at hval hrest
      simp only [maskFirstByte, hval]
      have hlt : (b0 &&& 0x1f) * 2 ^ 248 + bytesToNatBE rest < 32 * 2 ^ 248 := by
        have : (b0 &&& 0x1f) * 2 ^ 248 ≤ 31 * 2 ^ 248 :=
          Nat.mul_le_mul_right _ hc0
        omega
      calc (b0 &&& 0x1f) * 2 ^ 248 + bytesToNatBE rest
          < 32 * 2 ^ 248 := hlt
        _ < frModulus := by norm_num [frModulus]

/-- C2 witness: with the sample hash (all-zero 32-byte output) the
commitment of the empty sample block equals its spec form and the masked
value stays below the modulus. -/
theorem c2_commitment_spec_witness :
    public_data_commitment dummyE ((blk0.block_number : Nat) : Fr) 0
        (publicDataOf dummyE blk0)
      = commitmentSpec dummyE blk0.block_number 0 (publicDataOf dummyE blk0)
    ∧ bytesToNatBE (maskFirstByte (dummyE.sha256
        (dummyE.sha256 (be_bit_vector_into_bytes
            (natBitsBE 256 blk0.block_number ++ frBits (0 : Fr)))
          ++ publicDataOf dummyE blk0))) < frModulus :=
  c2_commitment_spec dummyE blk0 0 (by decide)
    (fun l => by simp [dummyE])
    (fun l b hb => by
      simp only [dummyE, List.mem_replicate] at hb
      omega)
